import Mathlib

/-!
Verification of the observer tool-detection system.

Shallow embedding of the detection core of the repository:
the status classifier and per-region pipeline of
`production_tool_detector.py`, the misplacement resolver of
`enhanced_detector.py`, and the sliding-window proposer,
non-max suppression and detection scheduler of `realtime_tracker.py`.
Real-valued similarity scores and thresholds are modelled as rationals
(the source only compares, adds, subtracts and divides them); pixel
coordinates are modelled as integers / naturals; the NaN produced by
taking the mean of an empty score tensor is modelled as `Option.none`
(every comparison against NaN is false, which `classify_gap` reproduces).
-/

namespace Observer

/-! ### Status classifier (production_tool_detector.py, detect_single_tool, lines 314-320)

Source:
  if confidence_gap > self.config.confidence_threshold:   status = "present"
  elif confidence_gap > self.config.uncertainty_threshold: status = "uncertain"
  else:                                                    status = "missing"
-/

/-- Three-way status decision on a contrast value, exactly as in the source. -/
def classify_status (contrast presentThreshold uncertainThreshold : ℚ) : String :=
  if contrast > presentThreshold then "present"
  else if contrast > uncertainThreshold then "uncertain"
  else "missing"

theorem classify_eq_present_iff (c p u : ℚ) :
    classify_status c p u = "present" ↔ p < c := by
  unfold classify_status
  split_ifs with h1 h2
  · exact ⟨fun _ => h1, fun _ => rfl⟩
  · exact ⟨fun h => absurd h (by decide), fun h => absurd h h1⟩
  · exact ⟨fun h => absurd h (by decide), fun h => absurd h h1⟩

theorem classify_eq_uncertain_iff (c p u : ℚ) :
    classify_status c p u = "uncertain" ↔ u < c ∧ c ≤ p := by
  unfold classify_status
  split_ifs with h1 h2
  · exact ⟨fun h => absurd h (by decide), fun h => absurd h1 (not_lt.mpr h.2)⟩
  · exact ⟨fun _ => ⟨h2, not_lt.mp h1⟩, fun _ => rfl⟩
  · exact ⟨fun h => absurd h (by decide), fun h => absurd h.1 h2⟩

theorem classify_eq_missing_iff (c p u : ℚ) (h : u ≤ p) :
    classify_status c p u = "missing" ↔ c ≤ u := by
  unfold classify_status
  split_ifs with h1 h2
  · refine ⟨fun hx => absurd hx (by decide), fun hcu => absurd h1 ?_⟩
    exact not_lt.mpr (hcu.trans h)
  · exact ⟨fun hx => absurd hx (by decide), fun hcu => absurd h2 (not_lt.mpr hcu)⟩
  · exact ⟨fun _ => not_lt.mp h2, fun _ => rfl⟩

/-- C1: for configured thresholds with uncertainThreshold ≤ presentThreshold,
the status classifier returns "present" iff contrast > presentThreshold,
"uncertain" iff uncertainThreshold < contrast ≤ presentThreshold, and
"missing" iff contrast ≤ uncertainThreshold; for presentThreshold 0.0001 and
uncertainThreshold -0.0001, contrast 0.0002 yields "present", 0.0 yields
"uncertain" and -0.0005 yields "missing". -/
theorem C1_status_classifier (c p u : ℚ) (h : u ≤ p) :
    ((classify_status c p u = "present" ↔ p < c) ∧
     (classify_status c p u = "uncertain" ↔ u < c ∧ c ≤ p) ∧
     (classify_status c p u = "missing" ↔ c ≤ u)) ∧
    classify_status (2 / 10000) (1 / 10000) (-1 / 10000) = "present" ∧
    classify_status 0 (1 / 10000) (-1 / 10000) = "uncertain" ∧
    classify_status (-5 / 10000) (1 / 10000) (-1 / 10000) = "missing" := by
  refine ⟨⟨classify_eq_present_iff c p u, classify_eq_uncertain_iff c p u,
    classify_eq_missing_iff c p u h⟩, by norm_num [classify_status],
    by norm_num [classify_status], by norm_num [classify_status]⟩

/-- C1 witness: the classifier theorem instantiated at contrast 0,
presentThreshold 0.0001, uncertainThreshold -0.0001. -/
theorem C1_status_classifier_witness :
    (-1 / 10000 : ℚ) ≤ 1 / 10000 ∧
    (((classify_status 0 (1 / 10000) (-1 / 10000) = "present" ↔ (1 / 10000 : ℚ) < 0) ∧
      (classify_status 0 (1 / 10000) (-1 / 10000) = "uncertain" ↔
        (-1 / 10000 : ℚ) < 0 ∧ (0 : ℚ) ≤ 1 / 10000) ∧
      (classify_status 0 (1 / 10000) (-1 / 10000) = "missing" ↔ (0 : ℚ) ≤ -1 / 10000)) ∧
     classify_status (2 / 10000) (1 / 10000) (-1 / 10000) = "present" ∧
     classify_status 0 (1 / 10000) (-1 / 10000) = "uncertain" ∧
     classify_status (-5 / 10000) (1 / 10000) (-1 / 10000) = "missing") :=
  ⟨by norm_num, C1_status_classifier 0 (1 / 10000) (-1 / 10000) (by norm_num)⟩

/-! ### System configuration (production_tool_detector.py, SystemConfig, lines 29-38)

A plain dataclass; no field validation of any kind is performed, neither
at construction nor before use. -/

/-- Configuration record of the production detector; default values are the
ones of the source dataclass. -/
structure SystemConfig where
  model_name : String := "ViT-B-32"
  confidence_threshold : ℚ := 1 / 10000
  uncertainty_threshold : ℚ := -3 / 10000
  detection_timeout : ℚ := 30
  log_level : String := "INFO"
  save_roi_images : Bool := true
  enable_alerts : Bool := true

/-- One entry of the workspace configuration list produced by
load_workspace_configuration: an id, a tool name and a bounding box in
[x, y, w, h] form.  Coordinates are modelled as integers, on which the
int() conversions of the source are the identity. -/
structure ToolConfig where
  id : String
  name : String
  bbox : List ℤ

/-- Detection result dataclass (production_tool_detector.py lines 18-27).
The confidence field is an Option: none models the IEEE NaN that the source
stores when a score tensor was empty. -/
structure DetectionResult where
  tool_id : String
  tool_name : String
  status : String
  confidence : Option ℚ
  bbox : List ℤ
deriving DecidableEq

/-- Mean of a score list; torch returns NaN for the mean of an empty
tensor (it does not raise), modelled as none. -/
def tensorMean (l : List ℚ) : Option ℚ :=
  if l.isEmpty then none else some (l.sum / l.length)

/-- Contrast avg_positive - avg_negative of detect_single_tool
(lines 306-308); NaN (none) propagates through the subtraction. -/
def confidence_gap (pos neg : List ℚ) : Option ℚ :=
  match tensorMean pos, tensorMean neg with
  | some a, some b => some (a - b)
  | _, _ => none

/-- Status of a possibly-NaN contrast: every IEEE comparison against NaN is
false, so a none gap fails both threshold tests and falls through to
"missing". -/
def classify_gap (g : Option ℚ) (p u : ℚ) : String :=
  match g with
  | some c => classify_status c p u
  | none => "missing"

/-- Error verdict built by the exception handler of detect_single_tool
(lines 345-356): status "error", confidence 0.0, box [0, 0, 0, 0]. -/
def error_result (tool : ToolConfig) : DetectionResult :=
  ⟨tool.id, tool.name, "error", some 0, [0, 0, 0, 0]⟩

/-- Per-region pipeline of detect_single_tool (lines 260-356).  The
classifier collaborator is abstracted by its outcome: either an exception
(Except.error, from cropping, preprocessing or the CLIP calls) or the
jointly normalized similarity scores of the positive and negative label
templates.  Any exception, a bounding box that does not unpack into
x, y, w, h (the unpacking happens inside the try block) and the argmax
over an empty positive-score tensor (which raises in torch) are caught by
the handler and yield the error verdict; the checks commute because every
failure path produces the same error verdict.  Otherwise the status is the
classified contrast and the stored box is the PIL crop rectangle
[int(x), int(y), int(x+w), int(y+h)]. -/
def detect_single_tool (cfg : SystemConfig) (tool : ToolConfig)
    (outcome : Except String (List ℚ × List ℚ)) : DetectionResult :=
  match outcome with
  | .error _ => error_result tool
  | .ok (pos, neg) =>
    match tool.bbox with
    | [x, y, w, h] =>
      if pos.isEmpty then error_result tool
      else
        { tool_id := tool.id
          tool_name := tool.name
          status := classify_gap (confidence_gap pos neg)
            cfg.confidence_threshold cfg.uncertainty_threshold
          confidence := confidence_gap pos neg
          bbox := [x, y, x + w, y + h] }
    | _ => error_result tool

/-- Full pass of run_full_detection (lines 358-394): every region of the
workspace configuration is classified in order; detect_single_tool never
raises (its handler returns the error verdict instead), so the loop always
appends exactly one verdict per region and the pass always completes. -/
def run_full_detection (cfg : SystemConfig)
    (regions : List (ToolConfig × Except String (List ℚ × List ℚ))) :
    List DetectionResult :=
  regions.map fun r => detect_single_tool cfg r.1 r.2

theorem detect_single_tool_of_error (cfg : SystemConfig) (tool : ToolConfig)
    (e : String) : detect_single_tool cfg tool (.error e) = error_result tool := rfl

theorem detect_single_tool_of_ok (cfg : SystemConfig) (tool : ToolConfig)
    (pos neg : List ℚ) (x y w h : ℤ) (hb : tool.bbox = [x, y, w, h])
    (hpos : pos ≠ []) :
    detect_single_tool cfg tool (.ok (pos, neg)) =
      ⟨tool.id, tool.name,
       classify_gap (confidence_gap pos neg)
         cfg.confidence_threshold cfg.uncertainty_threshold,
       confidence_gap pos neg, [x, y, x + w, y + h]⟩ := by
  simp [detect_single_tool, hb, List.isEmpty_iff, hpos]

/-- C6 counterexample: a configuration that violates the threshold ordering
(confidence_threshold -1 < uncertainty_threshold 1) is neither rejected nor
flagged: the pipeline processes a region under it and produces the
perfectly normal verdict "present". -/
theorem C6_no_validation_counterexample :
    ((-1 : ℚ) < 1) ∧
    (detect_single_tool
        { confidence_threshold := -1, uncertainty_threshold := 1 }
        ⟨"tool_1", "hammer", [0, 0, 10, 10]⟩ (.ok ([1], [0]))).status
      = "present" := by
  refine ⟨by norm_num, ?_⟩
  norm_num [detect_single_tool, error_result, tensorMean, confidence_gap,
    classify_gap, classify_status]

/-- C6 (amended): the implementation performs no validation of the
threshold ordering: a configuration with confidence_threshold strictly
below uncertainty_threshold is accepted silently and every contrast is
then classified "present" or "missing" (the "uncertain" status becomes
unreachable); independently, the classifier is total for all threshold
values, so in particular no assumption presentThreshold > 0 is made. -/
theorem C6_threshold_ordering (p u : ℚ) (hv : p < u) :
    (∀ c : ℚ, classify_status c p u ≠ "uncertain" ∧
      (classify_status c p u = "present" ∨ classify_status c p u = "missing")) ∧
    (∀ c q v : ℚ, classify_status c q v = "present" ∨
      classify_status c q v = "uncertain" ∨ classify_status c q v = "missing") := by
  constructor
  · intro c
    unfold classify_status
    split_ifs with h1 h2
    · exact ⟨by decide, Or.inl rfl⟩
    · exact absurd hv (by push_neg; exact le_trans (le_of_lt h2) (not_lt.mp h1))
    · exact ⟨by decide, Or.inr rfl⟩
  · intro c q v
    unfold classify_status
    split_ifs <;> simp

/-- C6 witness: the amended theorem at the violating configuration
p = -1, u = 1. -/
theorem C6_threshold_ordering_witness :
    ((-1 : ℚ) < 1) ∧
    ((∀ c : ℚ, classify_status c (-1) 1 ≠ "uncertain" ∧
       (classify_status c (-1) 1 = "present" ∨ classify_status c (-1) 1 = "missing")) ∧
     (∀ c q v : ℚ, classify_status c q v = "present" ∨
       classify_status c q v = "uncertain" ∨ classify_status c q v = "missing")) :=
  ⟨by norm_num, C6_threshold_ordering (-1) 1 (by norm_num)⟩

/-- C7 counterexample: an empty negative-label score set does not fail at
all: torch silently yields a NaN mean, the NaN contrast fails both
threshold comparisons, and the region verdict is the normal status
"missing" instead of "error". -/
theorem C7_empty_labels_counterexample :
    (detect_single_tool {} ⟨"tool_1", "hammer", [0, 0, 10, 10]⟩
        (.ok ([1], []))).status = "missing" ∧
    ("missing" : String) ≠ "error" := by
  constructor
  · norm_num [detect_single_tool, error_result, tensorMean, confidence_gap,
      classify_gap, classify_status]
  · decide

/-- C7 (amended): a failure while classifying a region is fatal only to
that region: its verdict gets status "error" and every other region of the
pass still receives its own verdict, one verdict per region, so the pass
completes; an empty positive-label set fails (the argmax raise is caught,
status "error"), but an empty negative-label set does not fail: it yields
a NaN contrast and the normal status "missing". -/
theorem C7_per_region_isolation (cfg : SystemConfig)
    (pre post : List (ToolConfig × Except String (List ℚ × List ℚ)))
    (tool tool2 : ToolConfig) (e : String) (x y w h : ℤ) (pos : List ℚ)
    (hb : tool2.bbox = [x, y, w, h]) (hpos : pos ≠ []) :
    run_full_detection cfg (pre ++ (tool, .error e) :: post)
      = run_full_detection cfg pre ++ error_result tool :: run_full_detection cfg post ∧
    (error_result tool).status = "error" ∧
    (∀ regions, (run_full_detection cfg regions).length = regions.length) ∧
    (detect_single_tool cfg tool2 (.ok ([], []))).status = "error" ∧
    (detect_single_tool cfg tool2 (.ok (pos, []))).status = "missing" := by
  refine ⟨?_, rfl, ?_, ?_, ?_⟩
  · simp [run_full_detection, detect_single_tool_of_error]
  · intro regions; simp [run_full_detection]
  · simp [detect_single_tool, hb, error_result]
  · rw [detect_single_tool_of_ok cfg tool2 pos [] x y w h hb hpos]
    have : tensorMean [] = none := rfl
    simp [confidence_gap, this, classify_gap]

/-- C7 witness: the isolation theorem at a one-failing-region pass with a
concrete healthy second region. -/
theorem C7_per_region_isolation_witness :
    (([10, 20, 30, 40] : List ℤ) = [10, 20, 30, 40] ∧ ([1] : List ℚ) ≠ []) ∧
    (run_full_detection {} ([] ++ (⟨"t1", "hammer", [0, 0, 1, 1]⟩, .error "boom") :: [])
       = run_full_detection {} [] ++
         error_result ⟨"t1", "hammer", [0, 0, 1, 1]⟩ :: run_full_detection {} [] ∧
     (error_result ⟨"t1", "hammer", [0, 0, 1, 1]⟩).status = "error" ∧
     (∀ regions, (run_full_detection {} regions).length = regions.length) ∧
     (detect_single_tool {} ⟨"t2", "pliers", [10, 20, 30, 40]⟩ (.ok ([], []))).status = "error" ∧
     (detect_single_tool {} ⟨"t2", "pliers", [10, 20, 30, 40]⟩ (.ok ([1], []))).status = "missing") :=
  ⟨⟨rfl, by simp⟩,
   C7_per_region_isolation {} [] [] ⟨"t1", "hammer", [0, 0, 1, 1]⟩
     ⟨"t2", "pliers", [10, 20, 30, 40]⟩ "boom" 10 20 30 40 [1] rfl (by simp)⟩

/-! ### Misplacement resolver (enhanced_detector.py, EnhancedToolDetector)

The first stage of detect_with_misplacement_check classifies each catalog
region and stores the outcome in the roi_analysis dictionary, keyed by the
catalog position name in insertion order; the second stage resolves each
expected tool to correct / misplaced / missing. -/

/-- Python substring containment (the in operator): needle occurs
contiguously in hay.  The empty needle is a substring of every string,
witnessed by offset 0. -/
def pySubstr (needle hay : List Char) : Bool :=
  (List.range (hay.length + 1)).any fun i =>
    decide ((hay.drop i).take needle.length = needle)

/-- Python str.lower on the ASCII tool names used by the source. -/
def pyLower (s : String) : String := String.mk (s.toList.map Char.toLower)

/-- Tool type mapping of EnhancedToolDetector (tool_mapping dict,
lines 38-48), looked up with dict.get defaulting to the name itself. -/
def tool_mapping (name : String) : String :=
  if name = "hammer" then "hammer"
  else if name = "flat_screwdriver" then "screwdriver"
  else if name = "cross_screwdriver" then "screwdriver"
  else if name = "cutter" then "cutter"
  else if name = "tape_measure" then "tape measure"
  else if name = "hex_key_set" then "hex key"
  else if name = "screw_box" then "screw box"
  else if name = "pliers" then "pliers"
  else if name = "wrench" then "wrench"
  else name

/-- Match predicate _is_correct_tool (lines 131-149): exact equality of the
lowercased names, or substring containment in either direction, or the
screwdriver synonym rule. -/
def is_correct_tool (expected detected : String) : Bool :=
  if pyLower expected = pyLower detected then true
  else if pySubstr (pyLower expected).toList (pyLower detected).toList
      || pySubstr (pyLower detected).toList (pyLower expected).toList then true
  else if pyLower expected = "screwdriver"
      && pySubstr "screwdriver".toList (pyLower detected).toList then true
  else false

/-- One entry of the roi_analysis dictionary (lines 80-85): the class the
region classifier saw at one catalog position, its score, and the catalog
box of the position. -/
structure RoiInfo where
  detected : String
  confidence : ℚ
  bbox : List ℤ
deriving DecidableEq

/-- Ordered dictionary lookup; roi_analysis is keyed by the distinct
catalog position names in insertion order. -/
def dictGet : List (String × RoiInfo) → String → Option RoiInfo
  | [], _ => none
  | (k, v) :: rest, key => if k = key then some v else dictGet rest key

/-- First stage of detect_with_misplacement_check (lines 62-91): one
roi_analysis entry per catalog position whose region classification
produced a result (the simple detector returns None on failure, in which
case no entry is added); the stored box is the catalog box, unchanged. -/
def build_roi : List (ToolConfig × Option (String × ℚ)) → List (String × RoiInfo)
  | [] => []
  | (_, none) :: rest => build_roi rest
  | (tc, some (det, conf)) :: rest => (tc.name, ⟨det, conf, tc.bbox⟩) :: build_roi rest

/-- Scan of _find_tool_elsewhere (lines 151-161): the first position other
than the excluded one whose detected class matches the expected type, in
catalog iteration order (Python dictionaries iterate in insertion order). -/
def find_tool_elsewhere (expected : String) (roi : List (String × RoiInfo))
    (exclude : String) : Option String :=
  match roi with
  | [] => none
  | (pos, info) :: rest =>
    if pos = exclude then find_tool_elsewhere expected rest exclude
    else if is_correct_tool expected info.detected then some (pos ++ "_position")
    else find_tool_elsewhere expected rest exclude

/-- Enhanced detection result dataclass (lines 13-21). -/
structure EnhancedDetectionResult where
  tool_name : String
  expected_position : String
  actual_status : String
  confidence : ℚ
  found_at : Option String
  bbox : List ℤ
deriving DecidableEq

/-- Second stage of detect_with_misplacement_check (lines 96-127) for one
expected position: detected class, score and box default to "", 0.0 and []
when the position has no roi_analysis entry. -/
def resolve_one (roi : List (String × RoiInfo)) (tool_name : String) :
    EnhancedDetectionResult :=
  if is_correct_tool (tool_mapping tool_name)
      (((dictGet roi tool_name).map RoiInfo.detected).getD "") then
    ⟨tool_name, tool_name ++ "_position", "correct",
     ((dictGet roi tool_name).map RoiInfo.confidence).getD 0, none,
     ((dictGet roi tool_name).map RoiInfo.bbox).getD []⟩
  else
    match find_tool_elsewhere (tool_mapping tool_name) roi tool_name with
    | some q =>
      ⟨tool_name, tool_name ++ "_position", "misplaced",
       ((dictGet roi tool_name).map RoiInfo.confidence).getD 0, some q,
       ((dictGet roi tool_name).map RoiInfo.bbox).getD []⟩
    | none =>
      ⟨tool_name, tool_name ++ "_position", "missing",
       ((dictGet roi tool_name).map RoiInfo.confidence).getD 0, none,
       ((dictGet roi tool_name).map RoiInfo.bbox).getD []⟩

/-- Complete two-stage resolver: stage one builds roi_analysis, stage two
resolves every catalog position in order. -/
def detect_with_misplacement_check
    (observations : List (ToolConfig × Option (String × ℚ))) :
    List EnhancedDetectionResult :=
  observations.map fun o => resolve_one (build_roi observations) o.1.name

/-- Spec-side description of the candidate foundAt positions for an
expected position: the verdict-set entries at other positions whose
detected class matches, in catalog iteration order. -/
def specMatchesElsewhere (p : String) (roi : List (String × RoiInfo)) :
    List (String × RoiInfo) :=
  roi.filter fun e => (e.1 != p) && is_correct_tool (tool_mapping p) e.2.detected

theorem find_tool_elsewhere_eq (expected : String)
    (roi : List (String × RoiInfo)) (exclude : String)
    (hexp : expected = tool_mapping exclude) :
    find_tool_elsewhere expected roi exclude =
      ((specMatchesElsewhere exclude roi).head?).map fun e => e.1 ++ "_position" := by
  induction roi with
  | nil => rfl
  | cons hd tl ih =>
    obtain ⟨pos, info⟩ := hd
    by_cases hp : pos = exclude
    · simpa [find_tool_elsewhere, specMatchesElsewhere, hp, List.filter_cons] using ih
    · by_cases hm : is_correct_tool expected info.detected
      · simp [find_tool_elsewhere, specMatchesElsewhere, hp, hm, List.filter_cons, ← hexp]
      · simpa [find_tool_elsewhere, specMatchesElsewhere, hp, hm,
          List.filter_cons, ← hexp] using ih

theorem resolve_one_bbox (roi : List (String × RoiInfo)) (p : String)
    (info : RoiInfo) (hin : dictGet roi p = some info) :
    (resolve_one roi p).bbox = info.bbox := by
  unfold resolve_one
  rw [hin]
  simp only [Option.map_some', Option.getD_some]
  split
  · rfl
  · split <;> rfl

/-- Concrete two-position verdict set of the C4 scenario: hammer expected
at P1 but pliers detected there, pliers expected at P2 but hammer detected
there. -/
def roiSwap : List (String × RoiInfo) :=
  [("hammer", ⟨"pliers", 1, [1, 2, 3, 4]⟩), ("pliers", ⟨"hammer", 1, [5, 6, 7, 8]⟩)]

/-- C4: for an expected position p with a verdict entry, the resolver
reports "correct" exactly when the match predicate accepts the detected
class; otherwise its foundAt is the first other matching position in
catalog iteration order ("misplaced" when one exists, "missing" when
none does); and the swapped two-position scenario yields hammer misplaced
with foundAt the pliers position and pliers misplaced with foundAt the
hammer position. -/
theorem C4_misplacement_resolver (roi : List (String × RoiInfo)) (p : String)
    (info : RoiInfo) (hin : dictGet roi p = some info) :
    (is_correct_tool (tool_mapping p) info.detected = true →
      (resolve_one roi p).actual_status = "correct" ∧ (resolve_one roi p).found_at = none) ∧
    (is_correct_tool (tool_mapping p) info.detected = false →
      (resolve_one roi p).found_at =
        ((specMatchesElsewhere p roi).head?).map (fun e => e.1 ++ "_position") ∧
      ((∃ e ∈ roi, e.1 ≠ p ∧ is_correct_tool (tool_mapping p) e.2.detected) →
        (resolve_one roi p).actual_status = "misplaced") ∧
      ((∀ e ∈ roi, e.1 ≠ p → is_correct_tool (tool_mapping p) e.2.detected = false) →
        (resolve_one roi p).actual_status = "missing")) ∧
    resolve_one roiSwap "hammer" =
      ⟨"hammer", "hammer_position", "misplaced", 1, some "pliers_position", [1, 2, 3, 4]⟩ ∧
    resolve_one roiSwap "pliers" =
      ⟨"pliers", "pliers_position", "misplaced", 1, some "hammer_position", [5, 6, 7, 8]⟩ := by
  refine ⟨?_, ?_, by decide, by decide⟩
  · intro hmatch
    unfold resolve_one
    rw [hin]
    simp only [Option.map_some', Option.getD_some]
    rw [if_pos hmatch]
    exact ⟨rfl, rfl⟩
  · intro hmatch
    have hfind := find_tool_elsewhere_eq (tool_mapping p) roi p rfl
    unfold resolve_one
    rw [hin]
    simp only [Option.map_some', Option.getD_some]
    rw [if_neg (by simp [hmatch])]
    refine ⟨?_, ?_, ?_⟩
    · rw [hfind]
      rcases hh : (specMatchesElsewhere p roi).head? with _ | e <;> simp [hh]
    · rintro ⟨e, he, hne, hm⟩
      have hne2 : specMatchesElsewhere p roi ≠ [] := by
        simp only [ne_eq, specMatchesElsewhere, List.filter_eq_nil_iff, not_forall]
        exact ⟨e, he, by simp [hne, hm]⟩
      obtain ⟨e0, tl0, hcons⟩ := List.exists_cons_of_ne_nil hne2
      have : (specMatchesElsewhere p roi).head? = some e0 := by rw [hcons]; rfl
      rw [hfind, this]
      rfl
    · intro hall
      have hnil : specMatchesElsewhere p roi = [] := by
        simp only [specMatchesElsewhere, List.filter_eq_nil_iff]
        intro e he
        by_cases hne : e.1 = p
        · simp [hne]
        · simp [hne, hall e he hne]
      rw [hfind, hnil]
      rfl

/-- C4 witness: the resolver theorem at the swapped scenario, position
hammer, whose verdict entry is pliers. -/
theorem C4_misplacement_resolver_witness :
    dictGet roiSwap "hammer" = some ⟨"pliers", 1, [1, 2, 3, 4]⟩ ∧
    ((is_correct_tool (tool_mapping "hammer") (RoiInfo.detected ⟨"pliers", 1, [1, 2, 3, 4]⟩) = true →
      (resolve_one roiSwap "hammer").actual_status = "correct" ∧
      (resolve_one roiSwap "hammer").found_at = none) ∧
     (is_correct_tool (tool_mapping "hammer") (RoiInfo.detected ⟨"pliers", 1, [1, 2, 3, 4]⟩) = false →
      (resolve_one roiSwap "hammer").found_at =
        ((specMatchesElsewhere "hammer" roiSwap).head?).map (fun e => e.1 ++ "_position") ∧
      ((∃ e ∈ roiSwap, e.1 ≠ "hammer" ∧
          is_correct_tool (tool_mapping "hammer") e.2.detected) →
        (resolve_one roiSwap "hammer").actual_status = "misplaced") ∧
      ((∀ e ∈ roiSwap, e.1 ≠ "hammer" →
          is_correct_tool (tool_mapping "hammer") e.2.detected = false) →
        (resolve_one roiSwap "hammer").actual_status = "missing")) ∧
     resolve_one roiSwap "hammer" =
       ⟨"hammer", "hammer_position", "misplaced", 1, some "pliers_position", [1, 2, 3, 4]⟩ ∧
     resolve_one roiSwap "pliers" =
       ⟨"pliers", "pliers_position", "misplaced", 1, some "hammer_position", [5, 6, 7, 8]⟩) :=
  ⟨by decide, C4_misplacement_resolver roiSwap "hammer" ⟨"pliers", 1, [1, 2, 3, 4]⟩ (by decide)⟩

/-- Concrete verdict set in which two expected positions (both screwdriver
subtypes) resolve to the same foundAt position. -/
def roiShared : List (String × RoiInfo) :=
  [("flat_screwdriver", ⟨"hammer", 1, []⟩),
   ("cross_screwdriver", ⟨"pliers", 1, []⟩),
   ("hammer", ⟨"screwdriver", 1, []⟩)]

/-- C9: the resolver enforces no one-to-one assignment: in the roiShared
verdict set the two distinct screwdriver positions are both independently
reported "misplaced" with the same foundAt position. -/
theorem C9_no_bijective_assignment :
    (resolve_one roiShared "flat_screwdriver").actual_status = "misplaced" ∧
    (resolve_one roiShared "flat_screwdriver").found_at = some "hammer_position" ∧
    (resolve_one roiShared "cross_screwdriver").actual_status = "misplaced" ∧
    (resolve_one roiShared "cross_screwdriver").found_at = some "hammer_position" ∧
    ("flat_screwdriver" : String) ≠ "cross_screwdriver" := by
  refine ⟨by decide, by decide, by decide, by decide, by decide⟩

theorem pySubstr_nil (hay : List Char) : pySubstr [] hay = true := by
  simp only [pySubstr, List.any_eq_true, List.mem_range]
  exact ⟨0, Nat.succ_pos _, by simp⟩

theorem is_correct_tool_empty (expected : String) :
    is_correct_tool expected "" = true := by
  unfold is_correct_tool
  split_ifs with h1 h2 h3
  · rfl
  · rfl
  · rfl
  · exfalso
    apply h2
    rw [show (pyLower "").toList = [] from rfl, pySubstr_nil, Bool.or_true]

/-- C10: the match predicate accepts the empty detected class for every
expected class (the empty string is a substring of everything), so a
position without a classification result, whose detected class defaults to
the empty string, is always reported "correct" and never "missing" or
"misplaced". -/
theorem C10_empty_string_matches (expected : String)
    (roi : List (String × RoiInfo)) (tn : String)
    (hnone : dictGet roi tn = none) :
    is_correct_tool expected "" = true ∧
    (resolve_one roi tn).actual_status = "correct" ∧
    (resolve_one roi tn).actual_status ≠ "missing" ∧
    (resolve_one roi tn).actual_status ≠ "misplaced" := by
  have hc : (resolve_one roi tn).actual_status = "correct" := by
    unfold resolve_one
    rw [hnone]
    simp only [Option.map_none', Option.getD_none]
    rw [if_pos (is_correct_tool_empty _)]
  exact ⟨is_correct_tool_empty expected, hc, by rw [hc]; decide, by rw [hc]; decide⟩

/-- C10 witness: the empty-detected theorem at expected class hammer over
an empty verdict set. -/
theorem C10_empty_string_matches_witness :
    dictGet [] "hammer" = none ∧
    (is_correct_tool "hammer" "" = true ∧
     (resolve_one [] "hammer").actual_status = "correct" ∧
     (resolve_one [] "hammer").actual_status ≠ "missing" ∧
     (resolve_one [] "hammer").actual_status ≠ "misplaced") :=
  ⟨rfl, C10_empty_string_matches "hammer" [] "hammer" rfl⟩

/-- C5: the catalog box [10, 20, 30, 40] is NOT returned unchanged by the
production DetectionResult: detect_single_tool stores the PIL crop corners
[10, 20, 40, 60] (the renderer of video_stream_detector.py line 90 then
unpacks this field as [x, y, width, height], per its own comment); the
misplacement resolver, by contrast, does return the catalog box
unchanged. -/
theorem C5_bbox_not_roundtripped :
    (detect_single_tool {} ⟨"tool_1", "hammer", [10, 20, 30, 40]⟩
        (.ok ([1], [0]))).bbox = [10, 20, 40, 60] ∧
    ([10, 20, 40, 60] : List ℤ) ≠ [10, 20, 30, 40] ∧
    (resolve_one
        (build_roi [(⟨"tool_1", "hammer", [10, 20, 30, 40]⟩, some ("pliers", 1))])
        "hammer").bbox = [10, 20, 30, 40] := by
  refine ⟨rfl, by decide, ?_⟩
  have : build_roi [(⟨"tool_1", "hammer", [10, 20, 30, 40]⟩, some ("pliers", 1))]
      = [("hammer", ⟨"pliers", 1, [10, 20, 30, 40]⟩)] := rfl
  rw [this]
  exact resolve_one_bbox _ "hammer" ⟨"pliers", 1, [10, 20, 30, 40]⟩ rfl

/-! ### Sliding-window proposer (realtime_tracker.py, sliding_window_detection, lines 57-117)

Source grid:
  for y in range(0, height - window_size, stride):
      for x in range(0, width - window_size, stride):
          window = frame_rgb[y:y+window_size, x:x+window_size]

For a positive step, Python range(0, stop, step) enumerates the multiples
of step below stop in increasing order, and it is empty when stop is not
positive, which truncated natural subtraction reproduces. -/

/-- Python range(0, stop, step) for a positive step: the multiples of step
below stop, in increasing order. -/
def pyRange (stop step : ℕ) : List ℕ :=
  (List.range stop).filter fun v => v % step = 0

/-- Grid cells scanned by sliding_window_detection: the outer loop runs
over y, the inner loop over x; a cell is recorded as the pair (x, y). -/
def sliding_window_cells (height width s t : ℕ) : List (ℕ × ℕ) :=
  ((pyRange (height - s) t) ×ˢ (pyRange (width - s) t)).map fun c => (c.2, c.1)

/-- One candidate window per grid cell, as the bbox [x, y, s, s] the source
records for the cell (window_size by window_size, never clipped). -/
def sliding_window_proposals (height width s t : ℕ) : List (ℕ × ℕ × ℕ × ℕ) :=
  (sliding_window_cells height width s t).map fun c => (c.1, c.2, s, s)

theorem mem_pyRange (stop step v : ℕ) :
    v ∈ pyRange stop step ↔ step ∣ v ∧ v < stop := by
  simp only [pyRange, List.mem_filter, List.mem_range, decide_eq_true_eq]
  constructor
  · rintro ⟨hlt, hmod⟩
    exact ⟨Nat.dvd_of_mod_eq_zero hmod, hlt⟩
  · rintro ⟨hdvd, hlt⟩
    exact ⟨hlt, Nat.mod_eq_zero_of_dvd hdvd⟩

theorem pyRange_nodup (stop step : ℕ) : (pyRange stop step).Nodup :=
  (List.nodup_range stop).filter _

theorem mem_sliding_window_cells (height width s t x y : ℕ) :
    (x, y) ∈ sliding_window_cells height width s t ↔
      (t ∣ x ∧ x + s < width) ∧ (t ∣ y ∧ y + s < height) := by
  simp only [sliding_window_cells, List.mem_map, List.mem_product, Prod.exists,
    Prod.mk.injEq]
  constructor
  · rintro ⟨y0, x0, ⟨hy0, hx0⟩, rfl, rfl⟩
    rw [mem_pyRange] at hy0 hx0
    exact ⟨⟨hx0.1, by omega⟩, hy0.1, by omega⟩
  · rintro ⟨⟨hdx, hxw⟩, hdy, hyh⟩
    exact ⟨y, x, ⟨(mem_pyRange _ _ _).mpr ⟨hdy, by omega⟩,
      (mem_pyRange _ _ _).mpr ⟨hdx, by omega⟩⟩, rfl, rfl⟩

theorem sliding_window_cells_nodup (height width s t : ℕ) :
    (sliding_window_cells height width s t).Nodup := by
  apply List.Nodup.map
  · intro a b hab
    exact Prod.ext (congrArg Prod.snd hab) (congrArg Prod.fst hab)
  · exact (pyRange_nodup _ _).product (pyRange_nodup _ _)

/-- C8: in sliding-window mode with a positive stride, the grid contains a
cell (x, y) exactly when x and y are stride multiples with x + s < width
and y + s < height; there are no duplicate cells; every emitted proposal
box is exactly s by s and lies fully inside the frame; and no proposal at
all is emitted when the frame is not strictly larger than the window. -/
theorem C8_sliding_window (height width s t : ℕ) (_ht : 0 < t) :
    (∀ x y, (x, y) ∈ sliding_window_cells height width s t ↔
      (t ∣ x ∧ x + s < width) ∧ (t ∣ y ∧ y + s < height)) ∧
    (sliding_window_cells height width s t).Nodup ∧
    (∀ x y w2 h2, (x, y, w2, h2) ∈ sliding_window_proposals height width s t →
      w2 = s ∧ h2 = s ∧ x + w2 ≤ width ∧ y + h2 ≤ height) ∧
    (height ≤ s ∨ width ≤ s → sliding_window_proposals height width s t = []) := by
  refine ⟨fun x y => mem_sliding_window_cells height width s t x y,
    sliding_window_cells_nodup height width s t, ?_, ?_⟩
  · intro x y w2 h2 hmem
    simp only [sliding_window_proposals, List.mem_map, Prod.mk.injEq] at hmem
    obtain ⟨c, hc, rfl, rfl, rfl, rfl⟩ := hmem
    obtain ⟨c1, c2⟩ := c
    have := (mem_sliding_window_cells height width s t c1 c2).mp hc
    exact ⟨rfl, rfl, by omega, by omega⟩
  · intro hsmall
    have : sliding_window_cells height width s t = [] := by
      rcases List.eq_nil_or_concat (sliding_window_cells height width s t) with h | ⟨l, c, h⟩
      · exact h
      · exfalso
        obtain ⟨c1, c2⟩ := c
        have hmem : (c1, c2) ∈ sliding_window_cells height width s t := by
          rw [h]; simp
        have := (mem_sliding_window_cells height width s t c1 c2).mp hmem
        omega
    simp [sliding_window_proposals, this]

/-- C8 witness: a 300 by 300 frame, window 100, stride 50. -/
theorem C8_sliding_window_witness :
    0 < 50 ∧
    ((∀ x y, (x, y) ∈ sliding_window_cells 300 300 100 50 ↔
       (50 ∣ x ∧ x + 100 < 300) ∧ (50 ∣ y ∧ y + 100 < 300)) ∧
     (sliding_window_cells 300 300 100 50).Nodup ∧
     (∀ x y w2 h2, (x, y, w2, h2) ∈ sliding_window_proposals 300 300 100 50 →
       w2 = 100 ∧ h2 = 100 ∧ x + w2 ≤ 300 ∧ y + h2 ≤ 300) ∧
     (300 ≤ 100 ∨ 300 ≤ 100 → sliding_window_proposals 300 300 100 50 = [])) :=
  ⟨by decide, C8_sliding_window 300 300 100 50 (by decide)⟩

/-! ### Detection scheduler (realtime_tracker.py, detect_frame_async, lines 156-197)

The producer loop of run_camera_tracking is the only caller of
detect_frame_async and of the manual trigger, and the single worker thread
only runs the pipeline and then clears is_detecting in a finally block;
under that threading structure every execution is a serialization of the
three atomic events below, modelled as a step function over event
traces. -/

/-- Scheduler state: the is_detecting busy flag, the last_detection_time
stamp, and, as ghost state for the invariant, the number of pipeline
invocations currently running. -/
structure TrackerState where
  is_detecting : Bool
  last_detection_time : ℚ
  active : ℕ
deriving DecidableEq

/-- Initial state from RealTimeTracker.__init__ (lines 29-33). -/
def initTracker : TrackerState := ⟨false, 0, 0⟩

/-- Scheduler events: tick is a detect_frame_async call at the given
current time; finish is a worker completing, with ok = false when the
pipeline raised; force is the manual trigger key handler. -/
inductive TrackerEvent where
  | tick (now : ℚ)
  | finish (ok : Bool)
  | force

/-- detect_frame_async (lines 156-174): a no-op while is_detecting is set
or while less than detection_interval has elapsed since the last pass
start; otherwise it sets the flag, records the pass start time (before the
worker runs) and starts exactly one worker. -/
def detect_frame_async (interval : ℚ) (s : TrackerState) (now : ℚ) : TrackerState :=
  if s.is_detecting then s
  else if now - s.last_detection_time < interval then s
  else ⟨true, now, s.active + 1⟩

/-- End of _detect_frame_worker (lines 176-197): the finally block clears
is_detecting whether the pipeline succeeded or raised, and the worker
never touches last_detection_time. -/
def worker_finish (s : TrackerState) (_ok : Bool) : TrackerState :=
  ⟨false, s.last_detection_time, s.active - 1⟩

/-- Manual trigger handler (run_camera_tracking line 294):
last_detection_time = 0, nothing else. -/
def force_trigger (s : TrackerState) : TrackerState :=
  ⟨s.is_detecting, 0, s.active⟩

/-- One scheduler event. -/
def tracker_step (interval : ℚ) (s : TrackerState) : TrackerEvent → TrackerState
  | .tick now => detect_frame_async interval s now
  | .finish ok => worker_finish s ok
  | .force => force_trigger s

/-- State reached after a trace of events from the initial state. -/
def tracker_run (interval : ℚ) (events : List TrackerEvent) : TrackerState :=
  events.foldl (tracker_step interval) initTracker

/-- The busy flag counts the running pipeline invocations exactly. -/
def TrackerInv (s : TrackerState) : Prop :=
  s.active = if s.is_detecting then 1 else 0

theorem trackerInv_step (interval : ℚ) (s : TrackerState) (e : TrackerEvent)
    (h : TrackerInv s) : TrackerInv (tracker_step interval s e) := by
  cases e with
  | tick now =>
    show TrackerInv (detect_frame_async interval s now)
    unfold detect_frame_async
    split_ifs with h1 h2
    · exact h
    · exact h
    · simp only [TrackerInv] at h ⊢
      simp [h, h1]
  | finish ok =>
    show TrackerInv (worker_finish s ok)
    simp only [TrackerInv, worker_finish] at h ⊢
    rw [show (if (false : Bool) = true then (1 : ℕ) else 0) = 0 from rfl]
    split at h <;> omega
  | force =>
    show TrackerInv (force_trigger s)
    simpa [TrackerInv, force_trigger] using h

theorem trackerInv_foldl (interval : ℚ) (events : List TrackerEvent) :
    ∀ s : TrackerState, TrackerInv s →
      TrackerInv (events.foldl (tracker_step interval) s) := by
  induction events with
  | nil => exact fun s h => h
  | cons e rest ih =>
    intro s h
    exact ih (tracker_step interval s e) (trackerInv_step interval s e h)

theorem trackerInv_run (interval : ℚ) (events : List TrackerEvent) :
    TrackerInv (tracker_run interval events) :=
  trackerInv_foldl interval events initTracker rfl

/-- C2: along every event trace the number of concurrently active pipeline
invocations never exceeds one; a tick while a pass is running or before
the interval has elapsed changes nothing (no new pass starts, and the call
returns rather than blocking); the tick that does start a pass records the
pass start time at that moment; the worker clears the busy flag
identically whether the pipeline succeeded or raised (finally block) and
never touches the recorded start time; and a forced trigger by itself
starts no pass and does not touch the busy flag. -/
theorem C2_scheduler (interval : ℚ) (events : List TrackerEvent)
    (s : TrackerState) (now : ℚ) (ok : Bool) :
    (tracker_run interval events).active ≤ 1 ∧
    (s.is_detecting = true → detect_frame_async interval s now = s) ∧
    (now - s.last_detection_time < interval → detect_frame_async interval s now = s) ∧
    (s.is_detecting = false → interval ≤ now - s.last_detection_time →
      detect_frame_async interval s now = ⟨true, now, s.active + 1⟩) ∧
    (worker_finish s ok).is_detecting = false ∧
    worker_finish s ok = worker_finish s true ∧
    (worker_finish s ok).last_detection_time = s.last_detection_time ∧
    (force_trigger s).is_detecting = s.is_detecting ∧
    (force_trigger s).active = s.active := by
  refine ⟨?_, ?_, ?_, ?_, rfl, rfl, rfl, rfl, rfl⟩
  · have h := trackerInv_run interval events
    unfold TrackerInv at h
    rw [h]
    split <;> omega
  · intro h
    unfold detect_frame_async
    rw [if_pos h]
  · intro h
    unfold detect_frame_async
    split_ifs with h1
    · rfl
    · rfl
  · intro h1 h2
    unfold detect_frame_async
    rw [if_neg (by simp [h1]), if_neg (not_lt.mpr h2)]

/-- C2 witness: the scheduler theorem at a concrete trace in which a tick
admits a pass, two further ticks are no-ops, and the worker finishes after
raising. -/
theorem C2_scheduler_witness :
    (tracker_run 1 [.tick 5, .tick 5, .tick 6, .finish false]).active ≤ 1 ∧
    (initTracker.is_detecting = true → detect_frame_async 1 initTracker 5 = initTracker) ∧
    (5 - initTracker.last_detection_time < 1 → detect_frame_async 1 initTracker 5 = initTracker) ∧
    (initTracker.is_detecting = false → 1 ≤ 5 - initTracker.last_detection_time →
      detect_frame_async 1 initTracker 5 = ⟨true, 5, initTracker.active + 1⟩) ∧
    (worker_finish initTracker false).is_detecting = false ∧
    worker_finish initTracker false = worker_finish initTracker true ∧
    (worker_finish initTracker false).last_detection_time = initTracker.last_detection_time ∧
    (force_trigger initTracker).is_detecting = initTracker.is_detecting ∧
    (force_trigger initTracker).active = initTracker.active :=
  C2_scheduler 1 [.tick 5, .tick 5, .tick 6, .finish false] initTracker 5 false

/-! ### Non-max suppression (realtime_tracker.py, non_max_suppression, lines 119-154) -/

/-- A scored detection: the confidence and the bbox [x, y, w, h] entries
of the detection dictionaries built by sliding_window_detection;
coordinates are rationals (integer grid cells, possibly rescaled by a
float factor in _detect_frame_worker). -/
structure Det where
  confidence : ℚ
  x : ℚ
  y : ℚ
  w : ℚ
  h : ℚ
deriving DecidableEq

/-- Left intersection coordinate (source line 136). -/
def x1_inter (d k : Det) : ℚ := max d.x k.x

/-- Top intersection coordinate (source line 137). -/
def y1_inter (d k : Det) : ℚ := max d.y k.y

/-- Right intersection coordinate (source line 138). -/
def x2_inter (d k : Det) : ℚ := min (d.x + d.w) (k.x + k.w)

/-- Bottom intersection coordinate (source line 139). -/
def y2_inter (d k : Det) : ℚ := min (d.y + d.h) (k.y + k.h)

/-- Intersection area (source line 142). -/
def interArea (d k : Det) : ℚ :=
  (x2_inter d k - x1_inter d k) * (y2_inter d k - y1_inter d k)

/-- Union area (source lines 143-145). -/
def unionArea (d k : Det) : ℚ := d.w * d.h + k.w * k.h - interArea d k

/-- Positive-overlap test of source line 141. -/
def hasOverlap (d k : Det) : Bool :=
  decide (x1_inter d k < x2_inter d k) && decide (y1_inter d k < y2_inter d k)

/-- Intersection over union, zero when the boxes have no positive overlap
on one of the axes; this is exactly the quantity the source compares
against the threshold whenever it compares at all (when the overlap is
positive the union is positive, so the division is well defined). -/
def iou (d k : Det) : ℚ :=
  if hasOverlap d k then interArea d k / unionArea d k else 0

/-- Suppression decision of the inner loop (source lines 132-149): an
examined detection is dropped when it overlaps an already kept detection
with a ratio exceeding the threshold. -/
def dropTest (d k : Det) (t : ℚ) : Bool :=
  hasOverlap d k && decide (interArea d k / unionArea d k > t)

/-- Insertion step of a stable descending sort on confidence: the new
element goes after every already placed element of strictly larger
confidence and before the first one whose confidence is not larger. -/
def insertDesc (d : Det) : List Det → List Det
  | [] => [d]
  | e :: l => if d.confidence < e.confidence then e :: insertDesc d l else d :: e :: l

/-- Stable descending sort by confidence: the semantics of the source call
sorted(detections, key=confidence, reverse=True) at line 125 (Python
sorted is stable; a stable descending sort is unique, so any stable sort
produces this list). -/
def sortDesc : List Det → List Det
  | [] => []
  | e :: l => insertDesc e (sortDesc l)

/-- Greedy keep loop of non_max_suppression (lines 127-152): kept is
final_detections; the examined detection is appended at the end when no
already kept detection suppresses it. -/
def nmsGo (t : ℚ) : List Det → List Det → List Det
  | kept, [] => kept
  | kept, d :: rest =>
    if ∀ k ∈ kept, dropTest d k t = false then nmsGo t (kept ++ [d]) rest
    else nmsGo t kept rest

/-- non_max_suppression (lines 119-154): return [] for an empty input,
otherwise sort by confidence descending and run the greedy keep loop. -/
def non_max_suppression (dets : List Det) (t : ℚ) : List Det :=
  if dets.isEmpty then [] else nmsGo t [] (sortDesc dets)

/-- Keep loop in the words of the spec: a detection is kept exactly when
its IoU with every already kept detection is at most the threshold. -/
def nmsSpecGo (t : ℚ) : List Det → List Det → List Det
  | kept, [] => kept
  | kept, d :: rest =>
    if ∀ k ∈ kept, iou d k ≤ t then nmsSpecGo t (kept ++ [d]) rest
    else nmsSpecGo t kept rest

/-- Spec-side deduplicator: stable descending sort, then the greedy keep
condition stated with IoU. -/
def nmsSpec (dets : List Det) (t : ℚ) : List Det :=
  nmsSpecGo t [] (sortDesc dets)

theorem dropTest_eq_false_iff (d k : Det) (t : ℚ) (ht : 0 ≤ t) :
    dropTest d k t = false ↔ iou d k ≤ t := by
  unfold dropTest iou
  cases hov : hasOverlap d k with
  | false => simp [ht]
  | true => simp [not_lt]

theorem interArea_comm (d k : Det) : interArea d k = interArea k d := by
  unfold interArea x1_inter y1_inter x2_inter y2_inter
  rw [max_comm d.x k.x, max_comm d.y k.y, min_comm (d.x + d.w) (k.x + k.w),
    min_comm (d.y + d.h) (k.y + k.h)]

theorem hasOverlap_comm (d k : Det) : hasOverlap d k = hasOverlap k d := by
  unfold hasOverlap x1_inter y1_inter x2_inter y2_inter
  rw [max_comm d.x k.x, max_comm d.y k.y, min_comm (d.x + d.w) (k.x + k.w),
    min_comm (d.y + d.h) (k.y + k.h)]

theorem unionArea_comm (d k : Det) : unionArea d k = unionArea k d := by
  unfold unionArea
  rw [interArea_comm, add_comm (d.w * d.h) (k.w * k.h)]

theorem iou_comm (d k : Det) : iou d k = iou k d := by
  unfold iou
  rw [hasOverlap_comm, interArea_comm, unionArea_comm]

theorem perm_insertDesc (d : Det) (l : List Det) : List.Perm (insertDesc d l) (d :: l) := by
  induction l with
  | nil => exact List.Perm.refl _
  | cons e l ih =>
    unfold insertDesc
    split_ifs with hc
    · exact (ih.cons e).trans (List.Perm.swap d e l)
    · exact List.Perm.refl _

theorem perm_sortDesc (l : List Det) : List.Perm (sortDesc l) l := by
  induction l with
  | nil => exact List.Perm.refl _
  | cons e l ih => exact (perm_insertDesc e (sortDesc l)).trans (ih.cons e)

theorem sorted_insertDesc (d : Det) (l : List Det)
    (h : l.Pairwise fun a b => b.confidence ≤ a.confidence) :
    (insertDesc d l).Pairwise fun a b => b.confidence ≤ a.confidence := by
  induction l with
  | nil => simp [insertDesc]
  | cons e l ih =>
    rw [List.pairwise_cons] at h
    unfold insertDesc
    split_ifs with hc
    · rw [List.pairwise_cons]
      refine ⟨?_, ih h.2⟩
      intro b hb
      rcases List.mem_cons.mp ((perm_insertDesc d l).mem_iff.mp hb) with rfl | hb2
      · exact le_of_lt hc
      · exact h.1 b hb2
    · rw [List.pairwise_cons]
      constructor
      · intro b hb
        rcases List.mem_cons.mp hb with rfl | hb2
        · exact not_lt.mp hc
        · exact le_trans (h.1 b hb2) (not_lt.mp hc)
      · exact List.pairwise_cons.mpr h

theorem sorted_sortDesc (l : List Det) :
    (sortDesc l).Pairwise fun a b => b.confidence ≤ a.confidence := by
  induction l with
  | nil => simp [sortDesc]
  | cons e l ih => exact sorted_insertDesc e (sortDesc l) ih

theorem filter_insertDesc (c : ℚ) (d : Det) (l : List Det) :
    (insertDesc d l).filter (fun e => decide (e.confidence = c)) =
      (d :: l).filter (fun e => decide (e.confidence = c)) := by
  induction l with
  | nil => rfl
  | cons e l ih =>
    unfold insertDesc
    split_ifs with hc
    · rw [List.filter_cons, ih, List.filter_cons, List.filter_cons, List.filter_cons]
      by_cases hdc : d.confidence = c
      · have hec : ¬ e.confidence = c := fun he =>
          absurd hc (by rw [hdc, he]; exact lt_irrefl c)
        simp [hdc, hec]
      · simp [hdc]
    · rfl

theorem filter_sortDesc (c : ℚ) (l : List Det) :
    (sortDesc l).filter (fun e => decide (e.confidence = c)) =
      l.filter (fun e => decide (e.confidence = c)) := by
  induction l with
  | nil => rfl
  | cons e l ih =>
    rw [show sortDesc (e :: l) = insertDesc e (sortDesc l) from rfl,
      filter_insertDesc, List.filter_cons, List.filter_cons, ih]

theorem nmsGo_cons (t : ℚ) (kept : List Det) (d : Det) (rest : List Det) :
    nmsGo t kept (d :: rest) =
      if ∀ k ∈ kept, dropTest d k t = false then nmsGo t (kept ++ [d]) rest
      else nmsGo t kept rest := rfl

theorem nmsSpecGo_cons (t : ℚ) (kept : List Det) (d : Det) (rest : List Det) :
    nmsSpecGo t kept (d :: rest) =
      if ∀ k ∈ kept, iou d k ≤ t then nmsSpecGo t (kept ++ [d]) rest
      else nmsSpecGo t kept rest := rfl

theorem mem_nmsGo (t : ℚ) (l : List Det) :
    ∀ kept, ∀ x ∈ nmsGo t kept l, x ∈ kept ∨ x ∈ l := by
  induction l with
  | nil => exact fun kept x hx => Or.inl hx
  | cons d rest ih =>
    intro kept x hx
    rw [nmsGo_cons] at hx
    split_ifs at hx with h
    · rcases ih (kept ++ [d]) x hx with h2 | h2
      · rcases List.mem_append.mp h2 with h3 | h3
        · exact Or.inl h3
        · exact Or.inr (List.mem_cons.mpr (Or.inl (List.mem_singleton.mp h3)))
      · exact Or.inr (List.mem_cons.mpr (Or.inr h2))
    · rcases ih kept x hx with h2 | h2
      · exact Or.inl h2
      · exact Or.inr (List.mem_cons.mpr (Or.inr h2))

theorem length_nmsGo (t : ℚ) (l : List Det) :
    ∀ kept, (nmsGo t kept l).length ≤ kept.length + l.length := by
  induction l with
  | nil => intro kept; simp [nmsGo]
  | cons d rest ih =>
    intro kept
    rw [nmsGo_cons]
    split_ifs with h
    · have := ih (kept ++ [d])
      simp only [List.length_append, List.length_cons, List.length_nil] at this ⊢
      omega
    · have := ih kept
      simp only [List.length_cons] at this ⊢
      omega

theorem kept_mem_nmsGo (t : ℚ) (l : List Det) :
    ∀ kept, ∀ x ∈ kept, x ∈ nmsGo t kept l := by
  induction l with
  | nil => exact fun kept x hx => hx
  | cons d rest ih =>
    intro kept x hx
    rw [nmsGo_cons]
    split_ifs with h
    · exact ih _ x (List.mem_append.mpr (Or.inl hx))
    · exact ih _ x hx

theorem pairwise_nmsGo (t : ℚ) (ht : 0 ≤ t) (l : List Det) :
    ∀ kept, (kept.Pairwise fun a b => iou a b ≤ t) →
      ((nmsGo t kept l).Pairwise fun a b => iou a b ≤ t) := by
  induction l with
  | nil => exact fun kept h => h
  | cons d rest ih =>
    intro kept h
    rw [nmsGo_cons]
    split_ifs with hkeep
    · apply ih
      rw [List.pairwise_append]
      refine ⟨h, List.pairwise_singleton _ _, ?_⟩
      intro a ha b hb
      rw [List.mem_singleton] at hb
      subst hb
      rw [iou_comm]
      exact (dropTest_eq_false_iff b a t ht).mp (hkeep a ha)
    · exact ih kept h

theorem sorted_nmsGo (t : ℚ) (l : List Det) :
    ∀ kept, (kept.Pairwise fun a b => b.confidence ≤ a.confidence) →
      (l.Pairwise fun a b => b.confidence ≤ a.confidence) →
      (∀ a ∈ kept, ∀ b ∈ l, b.confidence ≤ a.confidence) →
      ((nmsGo t kept l).Pairwise fun a b => b.confidence ≤ a.confidence) := by
  induction l with
  | nil => exact fun kept hk _ _ => hk
  | cons d rest ih =>
    intro kept hk hl hcross
    rw [nmsGo_cons]
    have hdrest := List.pairwise_cons.mp hl
    split_ifs with hkeep
    · apply ih
      · rw [List.pairwise_append]
        refine ⟨hk, List.pairwise_singleton _ _, ?_⟩
        intro a ha b hb
        rw [List.mem_singleton] at hb
        subst hb
        exact hcross a ha b (List.mem_cons_self b rest)
      · exact hdrest.2
      · intro a ha b hb
        rcases List.mem_append.mp ha with h2 | h2
        · exact hcross a h2 b (List.mem_cons.mpr (Or.inr hb))
        · rw [List.mem_singleton] at h2
          subst h2
          exact hdrest.1 b hb
    · apply ih kept hk hdrest.2
      intro a ha b hb
      exact hcross a ha b (List.mem_cons.mpr (Or.inr hb))

theorem nmsGo_eq_specGo (t : ℚ) (ht : 0 ≤ t) (l : List Det) :
    ∀ kept, nmsGo t kept l = nmsSpecGo t kept l := by
  induction l with
  | nil => exact fun kept => rfl
  | cons d rest ih =>
    intro kept
    rw [nmsGo_cons, nmsSpecGo_cons]
    by_cases h : ∀ k ∈ kept, dropTest d k t = false
    · rw [if_pos h, if_pos (fun k hk => (dropTest_eq_false_iff d k t ht).mp (h k hk)), ih]
    · rw [if_neg h,
        if_neg (fun hc => h fun k hk => (dropTest_eq_false_iff d k t ht).mpr (hc k hk)), ih]

theorem nms_eq_go (dets : List Det) (t : ℚ) :
    non_max_suppression dets t = nmsGo t [] (sortDesc dets) := by
  unfold non_max_suppression
  split_ifs with h
  · rw [List.isEmpty_iff.mp h]
    rfl
  · rfl

/-- C3 (amended): for a nonnegative IoU threshold, non-max suppression
equals the spec-side deduplicator (stable descending sort, then keep a
detection exactly when its IoU with every already kept one is at most the
threshold); its output is a subset of the input of no greater size, keeps
a maximal-confidence detection whenever the input is nonempty, contains
no two detections with IoU above the threshold, and is in descending
confidence order; and the sort is a stable descending permutation of the
input, with elements of each fixed confidence kept in original order. -/
theorem C3_non_max_suppression (dets : List Det) (t : ℚ) (ht : 0 ≤ t) :
    non_max_suppression dets t = nmsSpec dets t ∧
    (∀ d ∈ non_max_suppression dets t, d ∈ dets) ∧
    (non_max_suppression dets t).length ≤ dets.length ∧
    (dets ≠ [] → ∃ d ∈ non_max_suppression dets t,
      ∀ e ∈ dets, e.confidence ≤ d.confidence) ∧
    ((non_max_suppression dets t).Pairwise fun a b => iou a b ≤ t) ∧
    ((non_max_suppression dets t).Pairwise fun a b => b.confidence ≤ a.confidence) ∧
    List.Perm (sortDesc dets) dets ∧
    ((sortDesc dets).Pairwise fun a b => b.confidence ≤ a.confidence) ∧
    (∀ c : ℚ, (sortDesc dets).filter (fun e => decide (e.confidence = c)) =
      dets.filter (fun e => decide (e.confidence = c))) := by
  have hperm := perm_sortDesc dets
  have hsorted := sorted_sortDesc dets
  rw [nms_eq_go]
  refine ⟨?_, ?_, ?_, ?_, ?_, ?_, hperm, hsorted, fun c => filter_sortDesc c dets⟩
  · rw [nmsGo_eq_specGo t ht (sortDesc dets)]
    rfl
  · intro d hd
    rcases mem_nmsGo t (sortDesc dets) [] d hd with h | h
    · exact absurd h (List.not_mem_nil d)
    · exact hperm.mem_iff.mp h
  · have := length_nmsGo t (sortDesc dets) []
    simpa [hperm.length_eq] using this
  · intro hne
    have hsne : sortDesc dets ≠ [] := by
      intro h0
      rw [h0] at hperm
      exact hne (List.Perm.eq_nil hperm.symm)
    obtain ⟨d0, rest, hcons⟩ := List.exists_cons_of_ne_nil hsne
    refine ⟨d0, ?_, ?_⟩
    · rw [hcons, nmsGo_cons,
        if_pos (fun k hk => absurd hk (List.not_mem_nil k))]
      exact kept_mem_nmsGo t rest ([] ++ [d0]) d0 (by simp)
    · intro e he
      have he2 : e ∈ sortDesc dets := hperm.mem_iff.mpr he
      have hs2 := hsorted
      rw [hcons] at he2 hs2
      rcases List.mem_cons.mp he2 with rfl | he3
      · exact le_refl _
      · exact (List.pairwise_cons.mp hs2).1 e he3
  · exact pairwise_nmsGo t ht (sortDesc dets) [] List.Pairwise.nil
  · exact sorted_nmsGo t (sortDesc dets) [] List.Pairwise.nil hsorted
      (fun a ha => absurd ha (List.not_mem_nil a))

/-- C3 witness: the deduplicator theorem at a singleton input and
threshold 0. -/
theorem C3_non_max_suppression_witness :
    (0 : ℚ) ≤ 0 ∧
    (non_max_suppression [⟨2, 0, 0, 10, 10⟩] 0 = nmsSpec [⟨2, 0, 0, 10, 10⟩] 0 ∧
     (∀ d ∈ non_max_suppression [⟨2, 0, 0, 10, 10⟩] 0, d ∈ [(⟨2, 0, 0, 10, 10⟩ : Det)]) ∧
     (non_max_suppression [⟨2, 0, 0, 10, 10⟩] 0).length ≤ [(⟨2, 0, 0, 10, 10⟩ : Det)].length ∧
     ([(⟨2, 0, 0, 10, 10⟩ : Det)] ≠ [] → ∃ d ∈ non_max_suppression [⟨2, 0, 0, 10, 10⟩] 0,
       ∀ e ∈ [(⟨2, 0, 0, 10, 10⟩ : Det)], e.confidence ≤ d.confidence) ∧
     ((non_max_suppression [⟨2, 0, 0, 10, 10⟩] 0).Pairwise fun a b => iou a b ≤ 0) ∧
     ((non_max_suppression [⟨2, 0, 0, 10, 10⟩] 0).Pairwise
       fun a b => b.confidence ≤ a.confidence) ∧
     List.Perm (sortDesc [⟨2, 0, 0, 10, 10⟩]) [⟨2, 0, 0, 10, 10⟩] ∧
     ((sortDesc [⟨2, 0, 0, 10, 10⟩]).Pairwise fun a b => b.confidence ≤ a.confidence) ∧
     (∀ c : ℚ, (sortDesc [⟨2, 0, 0, 10, 10⟩]).filter (fun e => decide (e.confidence = c)) =
       [(⟨2, 0, 0, 10, 10⟩ : Det)].filter (fun e => decide (e.confidence = c)))) :=
  ⟨le_refl 0, C3_non_max_suppression [⟨2, 0, 0, 10, 10⟩] 0 (le_refl 0)⟩

/-- First detection of the C3 counterexample. -/
def detA : Det := ⟨2, 0, 0, 10, 10⟩

/-- Second detection of the C3 counterexample, disjoint from the first. -/
def detB : Det := ⟨1, 100, 100, 10, 10⟩

/-- C3 counterexample: with the negative threshold -1, two disjoint
detections are both kept (the source skips the IoU comparison entirely
when the overlap is not positive), yet their IoU, 0, exceeds the
threshold: the kept set contains two detections whose IoU exceeds
iouThreshold, refuting the claim as stated for every threshold. -/
theorem C3_nms_counterexample :
    non_max_suppression [detA, detB] (-1) = [detA, detB] ∧
    iou detA detB = 0 ∧
    (-1 : ℚ) < iou detA detB ∧
    ¬ ((non_max_suppression [detA, detB] (-1)).Pairwise
        fun a b => iou a b ≤ (-1 : ℚ)) := by
  have h2 : iou detA detB = 0 := by
    norm_num [iou, hasOverlap, x1_inter, x2_inter, y1_inter, y2_inter, detA, detB]
  have h1 : non_max_suppression [detA, detB] (-1) = [detA, detB] := by
    have hsort : sortDesc [detA, detB] = [detA, detB] := by
      norm_num [sortDesc, insertDesc, detA, detB]
    have hdrop : dropTest detB detA (-1) = false := by
      norm_num [dropTest, hasOverlap, x1_inter, x2_inter, y1_inter, y2_inter,
        detA, detB]
    rw [nms_eq_go, hsort, nmsGo_cons,
      if_pos (fun k hk => absurd hk (List.not_mem_nil k))]
    rw [show ([] : List Det) ++ [detA] = [detA] from rfl, nmsGo_cons]
    rw [if_pos ?hcond]
    · rfl
    case hcond =>
      intro k hk
      rw [List.mem_singleton.mp hk]
      exact hdrop
  refine ⟨h1, h2, by rw [h2]; norm_num, ?_⟩
  intro hp
  rw [h1] at hp
  have := (List.pairwise_cons.mp hp).1 detB (List.mem_cons_self _ _)
  rw [h2] at this
  exact absurd this (by norm_num)

end Observer
